import Mathlib

/-!
Shallow embedding of the migratable multi-block migration framework.

The source consists of `src/lib.rs` (the `MigrationStep` and `MigrateSequence`
traits with their tuple implementation, `NoopMigration`, `Cursor`) and
`procedural/src/lib.rs` (the generated `Migration` orchestrator: `migrate`,
`on_runtime_upgrade`, `pre_upgrade`, `in_progress` and the `on_idle` driver
loop), plus `src/weights.rs` (the `SubstrateWeight` constants).

Modelling conventions:
- `Weight` is a pair of `u64` (`ref_time`, `proof_size`); the saturating and
  checked arithmetic of the source is modelled on `Nat` with explicit
  saturation at `2 ^ 64 - 1` (and at `2 ^ 32 - 1` for the `u32` field
  `steps_done`).
- Storage versions (`u16`) are modelled as `Nat`.
- A cursor is modelled by the decoded step state itself: the engine only ever
  decodes bytes it encoded (`PROOF_DECODE` in the source), so the codec is the
  identity here.
- A heterogeneous tuple of `MigrationStep` types is modelled as a list of
  `MigStep S` records over a common state type `S`.
- Panics (`invalid_version`, decode failure, the `VERSION_RANGE` const panic)
  are modelled as `none`.
- The unbounded `while` loop in `steps` and the `loop` in the generated
  `on_idle` body take explicit fuel; `none` also covers fuel exhaustion.
-/

/-- Maximum value of a `u64`, i.e. `2 ^ 64 - 1`. -/
def U64MAX : Nat := 18446744073709551615

/-- Maximum value of a `u32`, i.e. `2 ^ 32 - 1`. -/
def U32MAX : Nat := 4294967295

/-- Saturating `u64` addition. -/
def satAdd64 (a b : Nat) : Nat := min (a + b) U64MAX

/-- Saturating `u64` multiplication. -/
def satMul64 (a b : Nat) : Nat := min (a * b) U64MAX

/-- Saturating `u32` clamp, used for `steps_done.saturating_accrue(1)`. -/
def sat32 (n : Nat) : Nat := min n U32MAX

/-- Substrate `Weight`: a `ref_time` and a `proof_size` component. -/
structure Weight where
  refTime : Nat
  proofSize : Nat
deriving DecidableEq

/-- Weight with both components zero (`Weight::zero()`). -/
def Weight.zero : Weight := ⟨0, 0⟩

/-- Rust `Weight::from_parts`. -/
def Weight.fromParts (r p : Nat) : Weight := ⟨r, p⟩

/-- Rust `Weight::all_gt`: strictly greater in every component. -/
def Weight.allGt (a b : Weight) : Bool :=
  decide (b.refTime < a.refTime) && decide (b.proofSize < a.proofSize)

/-- Rust `Weight::any_gt`: strictly greater in some component. -/
def Weight.anyGt (a b : Weight) : Bool :=
  decide (b.refTime < a.refTime) || decide (b.proofSize < a.proofSize)

/-- Rust `Weight::saturating_add`, componentwise. -/
def Weight.saturatingAdd (a b : Weight) : Weight :=
  ⟨satAdd64 a.refTime b.refTime, satAdd64 a.proofSize b.proofSize⟩

/-- Rust `saturating_sub` / `saturating_reduce` (Nat subtraction saturates at 0). -/
def Weight.saturatingSub (a b : Weight) : Weight :=
  ⟨a.refTime - b.refTime, a.proofSize - b.proofSize⟩

/-- Rust `checked_sub` / `checked_reduce`: `none` when either component underflows. -/
def Weight.checkedSub (a b : Weight) : Option Weight :=
  if b.refTime ≤ a.refTime ∧ b.proofSize ≤ a.proofSize then some (a.saturatingSub b) else none

/-- RuntimeDbWeight `reads(n)`: `Weight::from_parts(read * n, 0)`. -/
def dbReads (read n : Nat) : Weight := ⟨satMul64 read n, 0⟩

/-- RuntimeDbWeight `writes(n)`: `Weight::from_parts(write * n, 0)`. -/
def dbWrites (write n : Nat) : Weight := ⟨satMul64 write n, 0⟩

/-- weights.rs `migration_noop()`: base `(3_489_000, 1627)` plus one db read and
one db write. -/
def migrationNoopWeight (read write : Nat) : Weight :=
  ((Weight.fromParts 3489000 1627).saturatingAdd (dbReads read 1)).saturatingAdd
    (dbWrites write 1)

/-- weights.rs `migrate()`: base `(13_100_000, 3631)` plus two db reads and two
db writes; this is the fixed minimum reserved by `Migration::migrate`. -/
def migrateWeight (read write : Nat) : Weight :=
  ((Weight.fromParts 13100000 3631).saturatingAdd (dbReads read 2)).saturatingAdd
    (dbWrites write 2)

/-- lib.rs `IsFinished`. -/
inductive IsFinished where
  | Yes
  | No
deriving DecidableEq

/-- One `MigrationStep` implementation: its `VERSION`, `max_step_weight()`,
`Default::default()` state, and `step` (the `&mut self` receiver becomes
explicit state passing; the call returns the new state, `IsFinished` and the
consumed weight).  `S` is the decoded cursor state type. -/
structure MigStep (S : Type) where
  version : Nat
  maxStepWeight : Weight
  defaultState : S
  step : S → S × IsFinished × Weight

/-- lib.rs `NoopMigration<N>`: a unit step that immediately reports
`(IsFinished::Yes, Weight::zero())` and declares `max_step_weight = 0`. -/
def NoopMigration (N : Nat) : MigStep Unit :=
  { version := N
    maxStepWeight := Weight.zero
    defaultState := ()
    step := fun s => (s, IsFinished.Yes, Weight.zero) }

/-- lib.rs `StepResult`. -/
inductive StepResult (S : Type) where
  | InProgress (cursor : S) (steps_done : Nat)
  | Completed (steps_done : Nat)
deriving DecidableEq

/-- The `steps_done` carried by either `StepResult` variant. -/
def StepResult.stepsDone {S : Type} : StepResult S → Nat
  | .InProgress _ d => d
  | .Completed d => d

/-- lib.rs `MigrateResult`. -/
inductive MigrateResult where
  | NoMigrationPerformed
  | NoMigrationInProgress
  | InProgress (steps_done : Nat)
  | Completed
deriving DecidableEq

/-- One arm of the `VERSION_RANGE` const evaluation in lib.rs: the match arms
are tried in order (`(0, 0)` first, then the guarded consecutive arm); the
wildcard arm is the panic, modelled as `none`. -/
def versionRangeStep (acc : Nat × Nat) (v : Nat) : Option (Nat × Nat) :=
  if acc.1 = 0 ∧ acc.2 = 0 then some (v, v)
  else if v = acc.2 + 1 then some (acc.1, v)
  else none

/-- lib.rs `MigrateSequence::VERSION_RANGE`, folded over the tuple's declared
versions in order, starting from the `(0, 0)` sentinel; `none` models the
compile-time panic. -/
def MigrateSequence.VERSION_RANGE (versions : List Nat) : Option (Nat × Nat) :=
  versions.foldl (fun acc v => acc.bind (fun p => versionRangeStep p v)) (some (0, 0))

/-- Every adjacent pair of the list is of the form `(v, v + 1)`. -/
def chainSucc : List Nat → Bool
  | [] => true
  | [_] => true
  | a :: b :: t => (b == a + 1) && chainSucc (b :: t)

/-- The list is exactly `last + 1, last + 2, ...` in order. -/
def ascendingFrom (last : Nat) : List Nat → Bool
  | [] => true
  | v :: t => (v == last + 1) && ascendingFrom v t

/-- Last element of a list, with a default for the empty list. -/
def lastD (d : Nat) : List Nat → Nat
  | [] => d
  | v :: t => lastD v t

/-- lib.rs `MigrateSequence::is_upgrade_supported`, for a sequence whose
`VERSION_RANGE` is `range`: `target == high && in_storage + 1 == low`. -/
def isUpgradeSupported (range : Nat × Nat) (inStorage target : Nat) : Bool :=
  target == range.2 && inStorage + 1 == range.1

/-- The `while weight_left.all_gt(max_weight)` loop inside lib.rs `steps`, with
explicit fuel.  Each iteration runs one `step()` call, saturating-increments
`steps_done`, saturating-reduces `weight_left` by the reported weight, and
returns `Completed` when the call reported `IsFinished::Yes`.  `none` means the
fuel ran out while the loop would have continued. -/
def stepsLoop {S : Type} (ms : MigStep S) :
    Nat → S → Weight → Nat → Option (StepResult S × Weight)
  | 0, migration, weight_left, steps_done =>
      if weight_left.allGt ms.maxStepWeight then none
      else some (.InProgress migration steps_done, weight_left)
  | fuel + 1, migration, weight_left, steps_done =>
      if weight_left.allGt ms.maxStepWeight then
        match ms.step migration with
        | (_, IsFinished.Yes, w) =>
            some (.Completed (sat32 (steps_done + 1)), weight_left.saturatingSub w)
        | (migration2, IsFinished.No, w) =>
            stepsLoop ms fuel migration2 (weight_left.saturatingSub w)
              (sat32 (steps_done + 1))
      else some (.InProgress migration steps_done, weight_left)

/-- lib.rs `MigrateSequence::steps`: dispatch on the version in tuple order
(the `invalid_version` panic is `none`), decode the cursor (identity here) and
run the bounded step loop starting from `steps_done = 0`. -/
def MigrateSequence.steps {S : Type} (seq : List (MigStep S)) (version : Nat)
    (cursor : S) (weight_left : Weight) (fuel : Nat) : Option (StepResult S × Weight) :=
  match seq.find? (fun ms => version == ms.version) with
  | some ms => stepsLoop ms fuel cursor weight_left 0
  | none => none

/-- Budgets remaining at the moment of each `step()` call the loop makes:
ghost instrumentation of `stepsLoop` with the same recursion structure. -/
def stepsLoopCallBudgets {S : Type} (ms : MigStep S) : Nat → S → Weight → List Weight
  | 0, _, _ => []
  | fuel + 1, migration, weight_left =>
      if weight_left.allGt ms.maxStepWeight then
        match ms.step migration with
        | (_, IsFinished.Yes, _) => [weight_left]
        | (migration2, IsFinished.No, w) =>
            weight_left :: stepsLoopCallBudgets ms fuel migration2 (weight_left.saturatingSub w)
      else []

/-- lib.rs `MigrateSequence::new`: the encoded default state of the step with
the given version (`invalid_version` panic is `none`). -/
def MigrateSequence.new {S : Type} (seq : List (MigStep S)) (version : Nat) : Option S :=
  match seq.find? (fun ms => version == ms.version) with
  | some ms => some ms.defaultState
  | none => none

/-- Persistent pallet state touched by the orchestrator: the single
`MigrationInProgress` cursor slot and the on-chain `StorageVersion`. -/
structure PalletState (S : Type) where
  migrationInProgress : Option S
  onChainVersion : Nat
deriving DecidableEq

/-- procedural lib.rs `Migration::migrate`.  `latestVersion` is the declared
`current_storage_version()` (the target), `read` and `write` are the db weight
constants, `fuel` bounds the inner step loop.  Returns the result, the weight
reported as spent and the new pallet state; `none` models a panic (or fuel
exhaustion of the inner loop). -/
def Migration.migrate {S : Type} (seq : List (MigStep S))
    (latestVersion read write fuel : Nat) (st : PalletState S) (weight_limit : Weight) :
    Option (MigrateResult × Weight × PalletState S) :=
  match weight_limit.checkedSub (migrateWeight read write) with
  | none => some (.NoMigrationPerformed, Weight.zero, st)
  | some weight_left =>
    match st.migrationInProgress with
    | none => some (.NoMigrationInProgress, migrationNoopWeight read write, st)
    | some cursor_before =>
      let in_progress_version := st.onChainVersion + 1
      match MigrateSequence.steps seq in_progress_version cursor_before weight_left fuel with
      | none => none
      | some (.InProgress cursor steps_done, wl2) =>
          some (.InProgress steps_done, weight_limit.saturatingSub wl2,
            { st with migrationInProgress := some cursor })
      | some (.Completed steps_done, wl2) =>
          if latestVersion ≠ in_progress_version then
            match MigrateSequence.new seq (in_progress_version + 1) with
            | none => none
            | some c =>
                some (.InProgress steps_done, weight_limit.saturatingSub wl2,
                  { migrationInProgress := some c, onChainVersion := in_progress_version })
          else
            some (.Completed, weight_limit.saturatingSub wl2,
              { migrationInProgress := none, onChainVersion := in_progress_version })

/-- Tag for the three return paths of `on_runtime_upgrade` (they differ only in
the weight constant returned). -/
inductive UpgradeOutcome where
  | noopUpgrade
  | alreadyInProgress
  | upgraded
deriving DecidableEq

/-- procedural lib.rs `OnRuntimeUpgrade::on_runtime_upgrade` (non-try-runtime
build): return early when the on-chain version already equals the declared
latest version; return early when a migration is in progress; otherwise write
the initial cursor obtained from `new(storage_version + 1)` (whose
`invalid_version` panic is `none`; the panic happens before any write). -/
def onRuntimeUpgrade {S : Type} (seq : List (MigStep S)) (latestVersion : Nat)
    (st : PalletState S) : Option (UpgradeOutcome × PalletState S) :=
  if st.onChainVersion = latestVersion then some (.noopUpgrade, st)
  else if st.migrationInProgress.isSome then some (.alreadyInProgress, st)
  else
    match MigrateSequence.new seq (st.onChainVersion + 1) with
    | some cursor => some (.upgraded, { st with migrationInProgress := some cursor })
    | none => none

/-- procedural lib.rs `pre_upgrade` (try-runtime): the conjunction of its two
`ensure!` checks, for a sequence whose `VERSION_RANGE` evaluated to `range`. -/
def preUpgradeChecks (range : Nat × Nat) (storageVersion latestVersion : Nat) : Bool :=
  (storageVersion != latestVersion) && isUpgradeSupported range storageVersion latestVersion

/-- The migration loop that the `hooks` attribute splices into `on_idle`
(procedural lib.rs): repeatedly call `migrate` with the remaining weight,
deduct the reported weight, stop on `NoMigrationPerformed` or
`InProgress { steps_done: 0 }` (the `return` arm) and on `Completed` or
`NoMigrationInProgress` (the `break` arm), continue otherwise.  The last result
component counts the `migrate` calls made (ghost); `outerFuel` bounds the
loop. -/
def onIdleMigrationLoop {S : Type} (seq : List (MigStep S))
    (latestVersion read write fuel : Nat) :
    Nat → PalletState S → Weight → Nat → Option (Weight × PalletState S × Nat)
  | 0, _, _, _ => none
  | outerFuel + 1, st, remaining_weight, calls =>
    match Migration.migrate seq latestVersion read write fuel st remaining_weight with
    | none => none
    | some (result, w, st2) =>
      let remaining2 := remaining_weight.saturatingSub w
      match result with
      | .NoMigrationPerformed => some (remaining2, st2, calls + 1)
      | .InProgress 0 => some (remaining2, st2, calls + 1)
      | .InProgress _ =>
          onIdleMigrationLoop seq latestVersion read write fuel outerFuel st2 remaining2
            (calls + 1)
      | .Completed => some (remaining2, st2, calls + 1)
      | .NoMigrationInProgress => some (remaining2, st2, calls + 1)

/-- Result of applying `k` successive saturating `u32` increments to a
`steps_done` counter. -/
def satAccrueN (done : Nat) : Nat → Nat
  | 0 => done
  | k + 1 => sat32 (satAccrueN done k + 1)

/-- A concrete never-finishing step with declared ceiling `(1, 1)`, used to
exercise the loop guard at an exactly-equal budget. -/
def unitStep : MigStep Unit :=
  { version := 2
    maxStepWeight := Weight.fromParts 1 1
    defaultState := ()
    step := fun s => (s, IsFinished.No, Weight.fromParts 1 1) }

/-! Helper lemmas. -/

theorem Weight.saturatingSub_zero (a : Weight) : a.saturatingSub Weight.zero = a := by
  cases a
  simp [Weight.saturatingSub, Weight.zero]

theorem Weight.zero_anyGt (b : Weight) : Weight.zero.anyGt b = false := by
  simp [Weight.anyGt, Weight.zero]

theorem Weight.saturatingSub_anyGt_self (a b : Weight) :
    (a.saturatingSub b).anyGt a = false := by
  simp only [Weight.anyGt, Weight.saturatingSub, Bool.or_eq_false_iff,
    decide_eq_false_iff_not, not_lt]
  omega

theorem migrationNoopWeight_le (read write : Nat) :
    (migrationNoopWeight read write).refTime ≤ (migrateWeight read write).refTime ∧
      (migrationNoopWeight read write).proofSize ≤ (migrateWeight read write).proofSize := by
  simp only [migrationNoopWeight, migrateWeight, Weight.saturatingAdd, Weight.fromParts,
    dbReads, dbWrites, satAdd64, satMul64, U64MAX]
  omega

theorem sat32_one : sat32 1 = 1 := by decide

theorem sat32_succ_pos (n : Nat) : 1 ≤ sat32 (n + 1) := by
  simp only [sat32, U32MAX]
  omega

theorem stepsLoop_guard_false {S : Type} (ms : MigStep S) (fuel : Nat) (s : S)
    (wl : Weight) (done : Nat) (hg : wl.allGt ms.maxStepWeight = false) :
    stepsLoop ms fuel s wl done = some (.InProgress s done, wl) := by
  cases fuel <;> simp [stepsLoop, hg]

theorem stepsLoop_done_ge_one {S : Type} (ms : MigStep S) :
    ∀ (fuel : Nat) (s : S) (wl : Weight) (done : Nat) (r : StepResult S) (wl2 : Weight),
      1 ≤ done → stepsLoop ms fuel s wl done = some (r, wl2) → 1 ≤ r.stepsDone := by
  intro fuel
  induction fuel with
  | zero =>
    intro s wl done r wl2 hd h
    simp only [stepsLoop] at h
    split at h
    · exact absurd h (by simp)
    · cases h
      simpa [StepResult.stepsDone] using hd
  | succ fuel ih =>
    intro s wl done r wl2 hd h
    simp only [stepsLoop] at h
    split at h
    · rcases hstep : ms.step s with ⟨s2, fin, w⟩
      rw [hstep] at h
      cases fin with
      | Yes =>
        cases h
        simpa [StepResult.stepsDone] using sat32_succ_pos done
      | No =>
        exact ih s2 (wl.saturatingSub w) (sat32 (done + 1)) r wl2 (sat32_succ_pos done) h
    · cases h
      simpa [StepResult.stepsDone] using hd

theorem stepsLoop_completed_ge_one {S : Type} (ms : MigStep S) :
    ∀ (fuel : Nat) (s : S) (wl : Weight) (done d : Nat) (wl2 : Weight),
      stepsLoop ms fuel s wl done = some (.Completed d, wl2) → 1 ≤ d := by
  intro fuel
  induction fuel with
  | zero =>
    intro s wl done d wl2 h
    simp only [stepsLoop] at h
    split at h
    · exact absurd h (by simp)
    · cases h
  | succ fuel ih =>
    intro s wl done d wl2 h
    simp only [stepsLoop] at h
    split at h
    · rcases hstep : ms.step s with ⟨s2, fin, w⟩
      rw [hstep] at h
      cases fin with
      | Yes =>
        cases h
        exact sat32_succ_pos done
      | No => exact ih s2 (wl.saturatingSub w) (sat32 (done + 1)) d wl2 h
    · cases h

theorem stepsLoop_zero_progress {S : Type} (ms : MigStep S) :
    ∀ (fuel : Nat) (s s2 : S) (wl wl2 : Weight),
      stepsLoop ms fuel s wl 0 = some (.InProgress s2 0, wl2) →
        s2 = s ∧ wl2 = wl ∧ wl.allGt ms.maxStepWeight = false := by
  intro fuel s s2 wl wl2 h
  cases hg : wl.allGt ms.maxStepWeight with
  | false =>
    rw [stepsLoop_guard_false ms fuel s wl 0 hg] at h
    cases h
    exact ⟨rfl, rfl, rfl⟩
  | true =>
    exfalso
    cases fuel with
    | zero => simp [stepsLoop, hg] at h
    | succ fuel =>
      simp only [stepsLoop, hg, if_true] at h
      rcases hstep : ms.step s with ⟨s3, fin, w⟩
      rw [hstep] at h
      cases fin with
      | Yes => simp at h
      | No =>
        have h1 := stepsLoop_done_ge_one ms fuel s3 (wl.saturatingSub w) (sat32 (0 + 1))
          (.InProgress s2 0) wl2 (by rw [sat32_one]) h
        simp [StepResult.stepsDone] at h1

theorem stepsLoopCallBudgets_guard {S : Type} (ms : MigStep S) :
    ∀ (fuel : Nat) (s : S) (wl : Weight),
      ∀ b ∈ stepsLoopCallBudgets ms fuel s wl, ms.maxStepWeight.anyGt b = false := by
  intro fuel
  induction fuel with
  | zero => intro s wl b hb; simp [stepsLoopCallBudgets] at hb
  | succ fuel ih =>
    intro s wl b hb
    cases hg : wl.allGt ms.maxStepWeight with
    | false => simp [stepsLoopCallBudgets, hg] at hb
    | true =>
      have hguard : ms.maxStepWeight.refTime < wl.refTime ∧
          ms.maxStepWeight.proofSize < wl.proofSize := by
        simpa [Weight.allGt, Bool.and_eq_true, decide_eq_true_eq] using hg
      simp only [stepsLoopCallBudgets, hg, if_true] at hb
      rcases hstep : ms.step s with ⟨s2, fin, w⟩
      rw [hstep] at hb
      cases fin with
      | Yes =>
        simp only [List.mem_singleton] at hb
        subst hb
        simp only [Weight.anyGt, Bool.or_eq_false_iff, decide_eq_false_iff_not, not_lt]
        omega
      | No =>
        rcases List.mem_cons.mp hb with hb | hb
        · subst hb
          simp only [Weight.anyGt, Bool.or_eq_false_iff, decide_eq_false_iff_not, not_lt]
          omega
        · exact ih s2 (wl.saturatingSub w) b hb

theorem satAccrueN_shift (done : Nat) :
    ∀ k, satAccrueN done (k + 1) = satAccrueN (sat32 (done + 1)) k := by
  intro k
  induction k with
  | zero => simp [satAccrueN]
  | succ k ih =>
    show sat32 (satAccrueN done (k + 1) + 1) = sat32 (satAccrueN (sat32 (done + 1)) k + 1)
    rw [ih]

theorem satAccrueN_zero_eq (k : Nat) : satAccrueN 0 k = sat32 k := by
  induction k with
  | zero => simp [satAccrueN, sat32, U32MAX]
  | succ k ih =>
    simp only [satAccrueN, ih, sat32, U32MAX]
    omega

theorem stepsLoop_stepsDone_eq_calls {S : Type} (ms : MigStep S) :
    ∀ (fuel : Nat) (s : S) (wl : Weight) (done : Nat) (r : StepResult S) (wl2 : Weight),
      stepsLoop ms fuel s wl done = some (r, wl2) →
        r.stepsDone = satAccrueN done (stepsLoopCallBudgets ms fuel s wl).length := by
  intro fuel
  induction fuel with
  | zero =>
    intro s wl done r wl2 h
    simp only [stepsLoop] at h
    split at h
    · exact absurd h (by simp)
    · cases h
      simp [stepsLoopCallBudgets, satAccrueN, StepResult.stepsDone]
  | succ fuel ih =>
    intro s wl done r wl2 h
    cases hg : wl.allGt ms.maxStepWeight with
    | false =>
      rw [stepsLoop_guard_false ms (fuel + 1) s wl done hg] at h
      cases h
      simp [stepsLoopCallBudgets, hg, satAccrueN, StepResult.stepsDone]
    | true =>
      simp only [stepsLoop, hg, if_true] at h
      simp only [stepsLoopCallBudgets, hg, if_true]
      rcases hstep : ms.step s with ⟨s2, fin, w⟩
      rw [hstep] at h
      cases fin with
      | Yes =>
        cases h
        simp [StepResult.stepsDone, satAccrueN]
      | No =>
        have h1 := ih s2 (wl.saturatingSub w) (sat32 (done + 1)) r wl2 h
        simp only [List.length_cons, h1, satAccrueN_shift]

theorem migrate_spent_le {S : Type} (seq : List (MigStep S))
    (latestVersion read write fuel : Nat) (st : PalletState S) (b : Weight) :
    ∀ (res : MigrateResult) (spent : Weight) (st2 : PalletState S),
      Migration.migrate seq latestVersion read write fuel st b = some (res, spent, st2) →
        spent.anyGt b = false := by
  intro res spent st2 h
  rcases hchk : b.checkedSub (migrateWeight read write) with _ | wl0
  · simp only [Migration.migrate, hchk] at h
    cases h
    exact Weight.zero_anyGt b
  · have hle : (migrateWeight read write).refTime ≤ b.refTime ∧
        (migrateWeight read write).proofSize ≤ b.proofSize := by
      by_contra hcon
      simp [Weight.checkedSub, hcon] at hchk
    rcases hcur : st.migrationInProgress with _ | c
    · simp only [Migration.migrate, hchk, hcur] at h
      cases h
      have hn := migrationNoopWeight_le read write
      simp only [Weight.anyGt, Bool.or_eq_false_iff, decide_eq_false_iff_not, not_lt]
      omega
    · rcases hsteps : MigrateSequence.steps seq (st.onChainVersion + 1) c wl0 fuel
        with _ | ⟨sr, wl2⟩
      · simp [Migration.migrate, hchk, hcur, hsteps] at h
      · cases sr with
        | InProgress c2 d =>
          simp only [Migration.migrate, hchk, hcur, hsteps] at h
          cases h
          exact Weight.saturatingSub_anyGt_self b wl2
        | Completed d =>
          simp only [Migration.migrate, hchk, hcur, hsteps] at h
          split at h
          · rcases hnew : MigrateSequence.new seq (st.onChainVersion + 1 + 1) with _ | c2
            · simp [hnew] at h
            · simp only [hnew] at h
              cases h
              exact Weight.saturatingSub_anyGt_self b wl2
          · cases h
            exact Weight.saturatingSub_anyGt_self b wl2

theorem versionRange_foldl_none (vs : List Nat) :
    vs.foldl (fun acc v => acc.bind (fun p => versionRangeStep p v)) none = none := by
  induction vs with
  | nil => rfl
  | cons v t ih => simpa [List.foldl_cons, Option.none_bind] using ih

theorem versionRange_go (vs : List Nat) :
    ∀ mn last, 1 ≤ mn →
      vs.foldl (fun acc v => acc.bind (fun p => versionRangeStep p v)) (some (mn, last)) =
        if ascendingFrom last vs then some (mn, lastD last vs) else none := by
  induction vs with
  | nil => intro mn last hmn; simp [ascendingFrom, lastD]
  | cons v t ih =>
    intro mn last hmn
    have hstep : versionRangeStep (mn, last) v =
        if v = last + 1 then some (mn, v) else none := by
      simp only [versionRangeStep]
      rw [if_neg]
      omega
    by_cases hv : v = last + 1
    · simp only [List.foldl_cons, Option.some_bind, hstep, if_pos hv]
      rw [ih mn v hmn]
      simp [ascendingFrom, lastD, hv]
    · simp only [List.foldl_cons, Option.some_bind, hstep, if_neg hv]
      rw [versionRange_foldl_none]
      have : ascendingFrom last (v :: t) = false := by
        simp [ascendingFrom]
        omega
      rw [this]
      simp

theorem ascendingFrom_bounds (vs : List Nat) :
    ∀ last, ascendingFrom last vs = true →
      last ≤ lastD last vs ∧ ∀ x ∈ vs, last < x ∧ x ≤ lastD last vs := by
  induction vs with
  | nil => intro last _; simp [lastD]
  | cons v t ih =>
    intro last h
    simp only [ascendingFrom, Bool.and_eq_true, beq_iff_eq] at h
    obtain ⟨hv, ht⟩ := h
    obtain ⟨h1, h2⟩ := ih v ht
    refine ⟨?_, ?_⟩
    · simp only [lastD]
      omega
    · intro x hx
      rcases List.mem_cons.mp hx with hx | hx
      · subst hx
        simp only [lastD]
        omega
      · have := h2 x hx
        simp only [lastD]
        omega

theorem lastD_mem (vs : List Nat) : ∀ d, lastD d vs ∈ d :: vs := by
  induction vs with
  | nil => intro d; simp [lastD]
  | cons v t ih =>
    intro d
    simp only [lastD]
    rcases List.mem_cons.mp (ih v) with h | h
    · simp [h]
    · simp [List.mem_cons, h]

theorem chainSucc_eq_ascendingFrom (vs : List Nat) :
    ∀ v, chainSucc (v :: vs) = ascendingFrom v vs := by
  induction vs with
  | nil => intro v; simp [chainSucc, ascendingFrom]
  | cons b t ih =>
    intro v
    simp only [chainSucc, ascendingFrom, ih b]

/-! Claim theorems. -/

/-- C3, counterexample: the tuple `(NoopMigration<0>, NoopMigration<1>)` has all
adjacent version pairs consecutive, yet its `VERSION_RANGE` evaluates to
`(1, 1)` instead of `(lowest, highest) = (0, 1)`: the leading version 0
re-triggers the `(0, 0)` sentinel arm of the const loop. -/
theorem version_range_zero_counterexample :
    chainSucc [0, 1] = true
    ∧ MigrateSequence.VERSION_RANGE [0, 1] = some (1, 1)
    ∧ MigrateSequence.VERSION_RANGE [0, 1] ≠ some (0, 1) := by
  refine ⟨by decide, by decide, by decide⟩

/-- C3 (amended): for every nonempty tuple of migration steps whose first
declared version is nonzero, computing `VERSION_RANGE` panics exactly when some
adjacent pair of declared versions is not `(version, version + 1)` (so for
non-consecutive or duplicate versions), and when all adjacent pairs are
consecutive `VERSION_RANGE` equals `(first, last)` declared version, which is
then also `(lowest, highest)`. -/
theorem version_range_contiguity (v : Nat) (vs : List Nat) (h1 : 1 ≤ v) :
    (chainSucc (v :: vs) = true →
      MigrateSequence.VERSION_RANGE (v :: vs) = some (v, lastD v vs)
      ∧ (∀ x ∈ v :: vs, v ≤ x ∧ x ≤ lastD v vs)
      ∧ lastD v vs ∈ v :: vs)
    ∧ (chainSucc (v :: vs) = false →
      MigrateSequence.VERSION_RANGE (v :: vs) = none) := by
  have hunf : MigrateSequence.VERSION_RANGE (v :: vs) =
      vs.foldl (fun acc v => acc.bind (fun p => versionRangeStep p v)) (some (v, v)) := by
    simp [MigrateSequence.VERSION_RANGE, List.foldl_cons, Option.some_bind, versionRangeStep]
  rw [versionRange_go vs v v h1] at hunf
  rw [chainSucc_eq_ascendingFrom vs v]
  constructor
  · intro hasc
    rw [hunf, if_pos hasc]
    refine ⟨rfl, ?_, lastD_mem vs v⟩
    intro x hx
    rcases List.mem_cons.mp hx with hx | hx
    · subst hx
      exact ⟨le_refl x, (ascendingFrom_bounds vs x hasc).1⟩
    · obtain ⟨ha, hb⟩ := (ascendingFrom_bounds vs v hasc).2 x hx
      exact ⟨le_of_lt ha, hb⟩
  · intro hasc
    rw [hunf, if_neg (by simp [hasc])]

/-- C3, witness: the contiguous list `[2, 3]` yields range `(2, 3)`; the gapped
list `[2, 4]` panics. -/
theorem version_range_contiguity_witness :
    MigrateSequence.VERSION_RANGE [2, 3] = some (2, 3)
    ∧ MigrateSequence.VERSION_RANGE [2, 4] = none := by
  constructor
  · exact ((version_range_contiguity 2 [3] (by decide)).1 (by decide)).1
  · exact (version_range_contiguity 2 [4] (by decide)).2 (by decide)

/-- C2, counterexample: with declared ceiling `(1, 1)` and remaining budget
exactly `(1, 1)`, `steps` makes no `step()` call at all (the guard is the
strict `all_gt`, not `≥`): it returns `InProgress` with `steps_done = 0` and
the call-budget trace is empty. -/
theorem steps_exact_budget_counterexample :
    MigrateSequence.steps [unitStep] 2 () (Weight.fromParts 1 1) 5
      = some (.InProgress () 0, Weight.fromParts 1 1)
    ∧ stepsLoopCallBudgets unitStep 5 () (Weight.fromParts 1 1) = [] := by
  constructor <;> rfl

/-- C2 (amended): `steps` decodes the step for the version and runs the loop
from `steps_done = 0`; a `step()` call is made exactly when the remaining
budget is strictly greater than `max_step_weight` in every component
(`all_gt`): when the guard fails (in particular when the budget merely equals
`max_step_weight`) it immediately returns `InProgress` with the cursor and
budget untouched and `steps_done = 0`; when the guard holds it calls `step()`,
accumulates `steps_done`, subtracts the reported cost, returns `Completed` on
`IsFinished::Yes` and otherwise continues the loop. -/
theorem steps_strict_guard (S : Type) (seq : List (MigStep S)) (ms : MigStep S)
    (version : Nat) (s : S) (wl : Weight) (fuel : Nat)
    (hfind : seq.find? (fun m => version == m.version) = some ms) :
    MigrateSequence.steps seq version s wl fuel = stepsLoop ms fuel s wl 0
    ∧ (wl.allGt ms.maxStepWeight = false →
        MigrateSequence.steps seq version s wl fuel = some (.InProgress s 0, wl))
    ∧ (wl.allGt ms.maxStepWeight = true →
        MigrateSequence.steps seq version s wl (fuel + 1) =
          match ms.step s with
          | (_, IsFinished.Yes, w) => some (.Completed 1, wl.saturatingSub w)
          | (s2, IsFinished.No, w) => stepsLoop ms fuel s2 (wl.saturatingSub w) 1) := by
  have hdisp : ∀ f, MigrateSequence.steps seq version s wl f = stepsLoop ms f s wl 0 := by
    intro f
    simp [MigrateSequence.steps, hfind]
  refine ⟨hdisp fuel, ?_, ?_⟩
  · intro hg
    rw [hdisp fuel, stepsLoop_guard_false ms fuel s wl 0 hg]
  · intro hg
    rw [hdisp (fuel + 1)]
    simp only [stepsLoop, hg, if_true]
    rcases hstep : ms.step s with ⟨s2, fin, w⟩
    cases fin <;> simp [sat32_one]

/-- C2, witness: at budget exactly `(1, 1)` against ceiling `(1, 1)` the loop
makes no call; at budget `(2, 2)` the guard holds and the first call is made. -/
theorem steps_strict_guard_witness :
    MigrateSequence.steps [unitStep] 2 () (Weight.fromParts 1 1) 7
      = some (.InProgress () 0, Weight.fromParts 1 1)
    ∧ MigrateSequence.steps [unitStep] 2 () (Weight.fromParts 2 2) 1
      = stepsLoop unitStep 0 () (Weight.fromParts 1 1) 1 := by
  constructor
  · exact (steps_strict_guard Unit [unitStep] unitStep 2 () (Weight.fromParts 1 1) 7
      rfl).2.1 (by decide)
  · exact (steps_strict_guard Unit [unitStep] unitStep 2 () (Weight.fromParts 2 2) 0
      rfl).2.2 (by decide)

/-- C10: `NoopMigration<N>` declares `max_step_weight = 0` and its `step`
returns `(IsFinished::Yes, 0)`; running `steps` for its version with any
remaining budget strictly greater than zero in both components makes exactly
one `step()` call (the call-budget trace is the singleton of the initial
budget) and returns `Completed { steps_done: 1 }` with the budget unreduced. -/
theorem noop_migration_single_step (N fuel : Nat) (seq : List (MigStep Unit)) (wl : Weight)
    (hfind : seq.find? (fun m => N == m.version) = some (NoopMigration N))
    (hgt : wl.allGt Weight.zero = true) :
    (NoopMigration N).maxStepWeight = Weight.zero
    ∧ (NoopMigration N).step () = ((), IsFinished.Yes, Weight.zero)
    ∧ MigrateSequence.steps seq N () wl (fuel + 1) = some (.Completed 1, wl)
    ∧ stepsLoopCallBudgets (NoopMigration N) (fuel + 1) () wl = [wl] := by
  refine ⟨rfl, rfl, ?_, ?_⟩
  · simp only [MigrateSequence.steps, hfind]
    simp only [stepsLoop, NoopMigration, hgt, if_true]
    simp [sat32_one, Weight.saturatingSub_zero]
  · simp only [stepsLoopCallBudgets, NoopMigration, hgt, if_true]

/-- C10, witness: `NoopMigration<7>` at budget `(1, 1)`. -/
theorem noop_migration_single_step_witness :
    MigrateSequence.steps [NoopMigration 7] 7 () (Weight.fromParts 1 1) 1
      = some (.Completed 1, Weight.fromParts 1 1)
    ∧ stepsLoopCallBudgets (NoopMigration 7) 1 () (Weight.fromParts 1 1)
      = [Weight.fromParts 1 1] := by
  have h := noop_migration_single_step 7 0 [NoopMigration 7] (Weight.fromParts 1 1) rfl
    (by decide)
  exact ⟨h.2.2.1, h.2.2.2⟩

theorem PalletState.set_cursor_eq {S : Type} (st : PalletState S) (c : S)
    (hc : st.migrationInProgress = some c) :
    ({ st with migrationInProgress := some c } : PalletState S) = st := by
  cases st
  simp_all

/-- C1: budget safety.  For every step, `steps` never begins a `step()` call
whose declared ceiling exceeds (in any weight component) the budget remaining
at the moment of that call; the `steps_done` reported by the loop equals the
(saturated) number of such calls; and — under the step-author contract that
each call's reported cost never exceeds its declared ceiling — the total cost
that `migrate` reports as spent never exceeds the supplied budget `b` in any
component. -/
theorem mbm_budget_safety (S : Type) (seq : List (MigStep S)) (ms : MigStep S)
    (latestVersion read write fuel : Nat) (st : PalletState S) (b : Weight)
    (s : S) (wl : Weight)
    (hcontract : ∀ ms2 ∈ seq, ∀ s2 : S, ((ms2.step s2).2.2).anyGt ms2.maxStepWeight = false)
    (hcontract2 : ∀ s2 : S, ((ms.step s2).2.2).anyGt ms.maxStepWeight = false) :
    (∀ b2 ∈ stepsLoopCallBudgets ms fuel s wl, ms.maxStepWeight.anyGt b2 = false)
    ∧ (∀ (r : StepResult S) (wl2 : Weight), stepsLoop ms fuel s wl 0 = some (r, wl2) →
        r.stepsDone = sat32 (stepsLoopCallBudgets ms fuel s wl).length)
    ∧ (∀ (res : MigrateResult) (spent : Weight) (st2 : PalletState S),
        Migration.migrate seq latestVersion read write fuel st b = some (res, spent, st2) →
        spent.anyGt b = false) := by
  refine ⟨stepsLoopCallBudgets_guard ms fuel s wl, ?_,
    migrate_spent_le seq latestVersion read write fuel st b⟩
  intro r wl2 h
  rw [stepsLoop_stepsDone_eq_calls ms fuel s wl 0 r wl2 h, satAccrueN_zero_eq]

/-- C1, witness: at budget `(3, 3)` against ceiling `(1, 1)`, the first call
budget `(3, 3)` is not exceeded by the ceiling, and a full `migrate` run that
makes two calls reports spending `(13100002, 3633)` of the `(13100003, 3634)`
supplied. -/
theorem mbm_budget_safety_witness :
    unitStep.maxStepWeight.anyGt (Weight.fromParts 3 3) = false
    ∧ (Weight.fromParts 13100002 3633).anyGt (Weight.fromParts 13100003 3634) = false := by
  have h := mbm_budget_safety Unit [unitStep] unitStep 3 0 0 3 ⟨some (), 1⟩
    (Weight.fromParts 13100003 3634) () (Weight.fromParts 3 3)
    (by
      intro ms2 hms2 s2
      cases s2
      simp only [List.mem_singleton] at hms2
      subst hms2
      decide)
    (fun s2 => by cases s2; decide)
  refine ⟨?_, ?_⟩
  · exact h.1 (Weight.fromParts 3 3) (by decide)
  · exact h.2.2 (MigrateResult.InProgress 2) (Weight.fromParts 13100002 3633)
      ⟨some (), 1⟩ (by decide)

/-- C4, counterexample: the sequence `(NoopMigration<2>, NoopMigration<3>)` has
`VERSION_RANGE = (2, 3)` and `is_upgrade_supported(2, 3) = false` (because
`2 + 1 ≠ low = 2`), yet `on_runtime_upgrade` with stored version 2 and target 3
creates a cursor and starts the migration instead of failing. -/
theorem upgrade_unsupported_counterexample :
    MigrateSequence.VERSION_RANGE
        ([NoopMigration 2, NoopMigration 3].map (fun m => m.version)) = some (2, 3)
    ∧ isUpgradeSupported (2, 3) 2 3 = false
    ∧ onRuntimeUpgrade [NoopMigration 2, NoopMigration 3] 3 ⟨none, 2⟩
      = some (UpgradeOutcome.upgraded, ⟨some (), 2⟩) := by
  refine ⟨by decide, by decide, by rfl⟩

/-- C4 (amended): `on_runtime_upgrade` returns without creating a cursor when
the stored version equals the target or when a migration is already in
progress; it panics — creating no cursor — when `stored + 1` is not a declared
version of the sequence; otherwise it creates the cursor and starts the
migration even when `is_upgrade_supported` rejects the pair.  The
`is_upgrade_supported` condition is enforced only by the try-runtime
`pre_upgrade` check, which fails whenever it rejects the version pair. -/
theorem on_runtime_upgrade_behavior (S : Type) (seq : List (MigStep S))
    (latestVersion low high : Nat) (st : PalletState S) :
    (st.onChainVersion = latestVersion →
      onRuntimeUpgrade seq latestVersion st = some (.noopUpgrade, st))
    ∧ (st.onChainVersion ≠ latestVersion → st.migrationInProgress.isSome = true →
      onRuntimeUpgrade seq latestVersion st = some (.alreadyInProgress, st))
    ∧ (st.onChainVersion ≠ latestVersion → st.migrationInProgress = none →
      seq.find? (fun m => st.onChainVersion + 1 == m.version) = none →
      onRuntimeUpgrade seq latestVersion st = none)
    ∧ (∀ ms : MigStep S, st.onChainVersion ≠ latestVersion → st.migrationInProgress = none →
      seq.find? (fun m => st.onChainVersion + 1 == m.version) = some ms →
      onRuntimeUpgrade seq latestVersion st
        = some (.upgraded, { st with migrationInProgress := some ms.defaultState }))
    ∧ (st.onChainVersion ≠ latestVersion →
      isUpgradeSupported (low, high) st.onChainVersion latestVersion = false →
      preUpgradeChecks (low, high) st.onChainVersion latestVersion = false) := by
  refine ⟨?_, ?_, ?_, ?_, ?_⟩
  · intro hv
    simp [onRuntimeUpgrade, hv]
  · intro hv hp
    simp [onRuntimeUpgrade, hv, hp]
  · intro hv hp hf
    simp [onRuntimeUpgrade, hv, hp, MigrateSequence.new, hf]
  · intro ms hv hp hf
    simp [onRuntimeUpgrade, hv, hp, MigrateSequence.new, hf]
  · intro hv hsup
    simp [preUpgradeChecks, hsup]

/-- C4, witness: with stored version 1 the trigger starts the (supported)
migration of `(NoopMigration<2>, NoopMigration<3>)` toward target 3, and the
try-runtime checks reject the unsupported pair `(2, 3)`. -/
theorem on_runtime_upgrade_behavior_witness :
    onRuntimeUpgrade [NoopMigration 2, NoopMigration 3] 3 ⟨none, 1⟩
      = some (UpgradeOutcome.upgraded, ⟨some (), 1⟩)
    ∧ preUpgradeChecks (2, 3) 2 3 = false := by
  constructor
  · exact (on_runtime_upgrade_behavior Unit [NoopMigration 2, NoopMigration 3] 3 2 3
      ⟨none, 1⟩).2.2.2.1 (NoopMigration 2) (by decide) rfl rfl
  · exact (on_runtime_upgrade_behavior Unit [NoopMigration 2, NoopMigration 3] 3 2 3
      ⟨none, 2⟩).2.2.2.2 (by decide) (by decide)

/-- C5: whenever the inner `steps` call returns `Completed { steps_done }`,
`migrate` advances the stored schema version to `in_progress_version =
stored + 1`; if that equals the declared target version it clears the cursor
and returns `MigrateResult::Completed`, and otherwise it persists the fresh
cursor produced by `new(in_progress_version + 1)` and returns
`MigrateResult::InProgress { steps_done }`. -/
theorem migrate_completed_transition (S : Type) (seq : List (MigStep S))
    (latestVersion read write fuel : Nat) (st : PalletState S) (c : S)
    (b wl0 wl2 : Weight) (d : Nat)
    (hc : st.migrationInProgress = some c)
    (hw : b.checkedSub (migrateWeight read write) = some wl0)
    (hs : MigrateSequence.steps seq (st.onChainVersion + 1) c wl0 fuel
      = some (.Completed d, wl2)) :
    (latestVersion = st.onChainVersion + 1 →
      Migration.migrate seq latestVersion read write fuel st b
        = some (.Completed, b.saturatingSub wl2,
            { migrationInProgress := none, onChainVersion := st.onChainVersion + 1 }))
    ∧ (latestVersion ≠ st.onChainVersion + 1 →
      ∀ c2, MigrateSequence.new seq (st.onChainVersion + 1 + 1) = some c2 →
        Migration.migrate seq latestVersion read write fuel st b
          = some (.InProgress d, b.saturatingSub wl2,
              { migrationInProgress := some c2, onChainVersion := st.onChainVersion + 1 })) := by
  constructor
  · intro hv
    simp [Migration.migrate, hw, hc, hs, hv]
  · intro hv c2 hnew
    simp [Migration.migrate, hw, hc, hs, hv, hnew]

/-- C5, witness: a two-step noop sequence toward target 3; completing version 3
(stored 2) clears the cursor and completes, completing version 2 (stored 1)
writes the fresh cursor for version 3 and stays in progress. -/
theorem migrate_completed_transition_witness :
    Migration.migrate [NoopMigration 2, NoopMigration 3] 3 0 0 1 ⟨some (), 2⟩
        (Weight.fromParts 13100001 3632)
      = some (.Completed, Weight.fromParts 13100000 3631, ⟨none, 3⟩)
    ∧ Migration.migrate [NoopMigration 2, NoopMigration 3] 3 0 0 1 ⟨some (), 1⟩
        (Weight.fromParts 13100001 3632)
      = some (.InProgress 1, Weight.fromParts 13100000 3631, ⟨some (), 2⟩) := by
  constructor
  · exact (migrate_completed_transition Unit [NoopMigration 2, NoopMigration 3] 3 0 0 1
      ⟨some (), 2⟩ () (Weight.fromParts 13100001 3632) (Weight.fromParts 1 1)
      (Weight.fromParts 1 1) 1 rfl (by decide) (by decide)).1 rfl
  · exact (migrate_completed_transition Unit [NoopMigration 2, NoopMigration 3] 3 0 0 1
      ⟨some (), 1⟩ () (Weight.fromParts 13100001 3632) (Weight.fromParts 1 1)
      (Weight.fromParts 1 1) 1 rfl (by decide) (by decide)).2 (by decide) () rfl

/-- C7: single-flight.  For every state with a persisted cursor
(`in_progress() == true`), `on_runtime_upgrade` returns early (via the
equal-version or the already-in-progress path), starting no migration and
leaving the whole pallet state — cursor and stored version — unchanged. -/
theorem single_flight (S : Type) (seq : List (MigStep S)) (latestVersion : Nat)
    (st : PalletState S) (h : st.migrationInProgress.isSome = true) :
    onRuntimeUpgrade seq latestVersion st
      = some ((if st.onChainVersion = latestVersion then UpgradeOutcome.noopUpgrade
          else UpgradeOutcome.alreadyInProgress), st) := by
  by_cases hv : st.onChainVersion = latestVersion
  · simp [onRuntimeUpgrade, hv]
  · simp [onRuntimeUpgrade, hv, h]

/-- C7, witness: a state with a cursor and stored version 2 under target 3. -/
theorem single_flight_witness :
    onRuntimeUpgrade ([] : List (MigStep Unit)) 3 ⟨some (), 2⟩
      = some (UpgradeOutcome.alreadyInProgress, ⟨some (), 2⟩) := by
  have h := single_flight Unit [] 3 ⟨some (), 2⟩ rfl
  simpa using h

/-- C8: for every budget strictly below the reserved minimum (`migrate()`
weight) in both components, `migrate` returns `NoMigrationPerformed` with zero
cost spent and the pallet state (cursor slot and stored version) unchanged. -/
theorem insufficient_budget_no_mutation (S : Type) (seq : List (MigStep S))
    (latestVersion read write fuel : Nat) (st : PalletState S) (b : Weight)
    (h1 : b.refTime < (migrateWeight read write).refTime)
    (h2 : b.proofSize < (migrateWeight read write).proofSize) :
    Migration.migrate seq latestVersion read write fuel st b
      = some (.NoMigrationPerformed, Weight.zero, st) := by
  have hchk : b.checkedSub (migrateWeight read write) = none := by
    simp only [Weight.checkedSub]
    rw [if_neg]
    omega
  simp [Migration.migrate, hchk]

/-- C8, witness: a zero budget against the default db weights. -/
theorem insufficient_budget_no_mutation_witness :
    Migration.migrate ([] : List (MigStep Unit)) 3 0 0 1 ⟨some (), 1⟩ Weight.zero
      = some (.NoMigrationPerformed, Weight.zero, ⟨some (), 1⟩) :=
  insufficient_budget_no_mutation Unit [] 3 0 0 1 ⟨some (), 1⟩ Weight.zero
    (by decide) (by decide)

/-- C9: whenever the inner `steps` call returns
`InProgress { cursor, steps_done }`, `migrate` persists the new cursor into the
single cursor slot, returns `MigrateResult::InProgress { steps_done }`, and
leaves the stored schema version (the only other persisted field) unchanged. -/
theorem migrate_in_progress_persists_cursor (S : Type) (seq : List (MigStep S))
    (latestVersion read write fuel : Nat) (st : PalletState S) (c c2 : S)
    (b wl0 wl2 : Weight) (d : Nat)
    (hc : st.migrationInProgress = some c)
    (hw : b.checkedSub (migrateWeight read write) = some wl0)
    (hs : MigrateSequence.steps seq (st.onChainVersion + 1) c wl0 fuel
      = some (.InProgress c2 d, wl2)) :
    Migration.migrate seq latestVersion read write fuel st b
      = some (.InProgress d, b.saturatingSub wl2,
          { st with migrationInProgress := some c2 }) := by
  simp [Migration.migrate, hw, hc, hs]

/-- C9, witness: a never-finishing step suspended at a budget too small for a
further call; the cursor is re-persisted and the version stays 1. -/
theorem migrate_in_progress_persists_cursor_witness :
    Migration.migrate [unitStep] 3 0 0 2 ⟨some (), 1⟩ (Weight.fromParts 13100001 3632)
      = some (.InProgress 0, Weight.fromParts 13100000 3631, ⟨some (), 1⟩) :=
  migrate_in_progress_persists_cursor Unit [unitStep] 3 0 0 2 ⟨some (), 1⟩ () ()
    (Weight.fromParts 13100001 3632) (Weight.fromParts 1 1) (Weight.fromParts 1 1) 0
    rfl (by decide) (by decide)

/-- C6: zero-progress halt.  If a `migrate` call on a state with a persisted
cursor reports `InProgress { steps_done: 0 }` (which can only happen because
not even one `step()` call fit the remaining budget), then the resulting
pallet state — in particular the persisted cursor — is unchanged, and the
generated `on_idle` loop stops immediately after that single `migrate`
call. -/
theorem zero_progress_halt (S : Type) (seq : List (MigStep S))
    (latestVersion read write fuel outerFuel : Nat) (st : PalletState S) (c : S)
    (b w : Weight) (st2 : PalletState S)
    (hc : st.migrationInProgress = some c)
    (hm : Migration.migrate seq latestVersion read write fuel st b
      = some (.InProgress 0, w, st2)) :
    st2 = st
    ∧ onIdleMigrationLoop seq latestVersion read write fuel (outerFuel + 1) st b 0
      = some (b.saturatingSub w, st2, 1) := by
  have hst : st2 = st := by
    rcases hchk : b.checkedSub (migrateWeight read write) with _ | wl0
    · simp [Migration.migrate, hchk] at hm
    · rcases hsteps : MigrateSequence.steps seq (st.onChainVersion + 1) c wl0 fuel
        with _ | ⟨sr, wl2⟩
      · simp [Migration.migrate, hchk, hc, hsteps] at hm
      · rcases hfind : seq.find? (fun m => st.onChainVersion + 1 == m.version)
          with _ | ms
        · simp [MigrateSequence.steps, hfind] at hsteps
        · cases sr with
          | InProgress c3 d =>
            simp only [Migration.migrate, hchk, hc, hsteps, Option.some.injEq,
              Prod.mk.injEq, MigrateResult.InProgress.injEq] at hm
            obtain ⟨hd, _, hst2⟩ := hm
            subst hd
            simp only [MigrateSequence.steps, hfind] at hsteps
            obtain ⟨hc3, -, -⟩ := stepsLoop_zero_progress ms fuel c c3 wl0 wl2 hsteps
            rw [hc3] at hst2
            rw [← hst2]
            exact PalletState.set_cursor_eq st c hc
          | Completed d =>
            simp only [MigrateSequence.steps, hfind] at hsteps
            have hd1 := stepsLoop_completed_ge_one ms fuel c wl0 0 d wl2 hsteps
            simp only [Migration.migrate, hchk, hc, MigrateSequence.steps, hfind,
              hsteps] at hm
            split at hm
            · rcases hnew : MigrateSequence.new seq (st.onChainVersion + 1 + 1)
                with _ | c4
              · simp [hnew] at hm
              · simp only [hnew, Option.some.injEq, Prod.mk.injEq,
                  MigrateResult.InProgress.injEq] at hm
                omega
            · simp at hm
  refine ⟨hst, ?_⟩
  simp only [onIdleMigrationLoop, hm]

/-- C6, witness: a never-finishing step at a budget that pays for the check but
not for one call; the loop returns after one `migrate` call with the state
unchanged. -/
theorem zero_progress_halt_witness :
    onIdleMigrationLoop [unitStep] 3 0 0 2 1 ⟨some (), 1⟩ (Weight.fromParts 13100001 3632) 0
      = some (Weight.fromParts 1 1, ⟨some (), 1⟩, 1) := by
  have h := zero_progress_halt Unit [unitStep] 3 0 0 2 0 ⟨some (), 1⟩ ()
    (Weight.fromParts 13100001 3632) (Weight.fromParts 13100000 3631) ⟨some (), 1⟩
    rfl (by decide)
  exact h.2
